import Mathlib

/-!
Verification of the vespa repository sample against its natural-language
specification.  Each section embeds one component of the source tree as
executable Lean definitions, translated from the corresponding C++/Java
source, and proves the spec claims about them.

Conventions:
  * machine integers are modelled as `Nat`/`Int`, with explicit `% 2^w`
    where the source relies on wrap-around;
  * `double` fields that only ever carry exact values in the claims are
    modelled as `ℚ` (exact rational arithmetic);
  * side effects that a claim talks about (file writes, store reads,
    document iterations) are made explicit as event lists returned by the
    embedded functions.
-/

namespace Vespa

/-! ## Reference attribute (src/unnamed/part_003)

`ReferenceAttribute::considerCompact` decides, from the cached unique-store
memory usage, whether to run `compactWorst`. -/

namespace RefAttr

/-- `DEAD_BYTES_SLACK = 0x10000u` from reference_attribute.cpp line 20:
minimum dead bytes in unique store before considering compaction. -/
def DEAD_BYTES_SLACK : Nat := 0x10000

/-- Result of `considerCompact`: the returned bool together with whether
`compactWorst()` was invoked. -/
structure CompactOutcome where
  returned : Bool
  compactWorstCalled : Bool
  deriving Repr, DecidableEq

/-- Embedding of `ReferenceAttribute::considerCompact` (part_003 lines
203-215).  `usedBytes`/`deadBytes` come from
`_cachedUniqueStoreMemoryUsage`; `maxDeadBytesRatio` is the configured
compaction-strategy ratio (a C++ `double`, modelled exactly as `ℚ`).
`compactMemory = (deadBytes >= DEAD_BYTES_SLACK) && (usedBytes * ratio < deadBytes)`;
`compactWorst()` runs exactly when `compactMemory` holds, and
`compactMemory` is returned. -/
def considerCompact (usedBytes deadBytes : Nat) (maxDeadBytesRatio : ℚ) : CompactOutcome :=
  let compactMemory : Bool :=
    decide (deadBytes ≥ DEAD_BYTES_SLACK) && decide ((usedBytes : ℚ) * maxDeadBytesRatio < (deadBytes : ℚ))
  if compactMemory then
    { returned := true, compactWorstCalled := true }
  else
    { returned := false, compactWorstCalled := false }

end RefAttr

/-! ## Hosted node allocation (src/unnamed/part_006, part_008) -/

namespace Provision

/-- Modelled from the spec: a cluster's capacity request is either an
explicit node count with a flavor (`NodeSpec.CountNodeSpec`, the class
itself is not part of the source sample; only its use in
`NodePrioritizer` is) or a node-type request. -/
inductive NodeSpec where
  | countSpec (count : Nat)
  | typeSpec
  deriving Repr, DecidableEq

/-- The `wantedCount` computation inside `NodePrioritizer.isReplacement`
(part_006 lines 246-250): 0 unless the request is a `CountNodeSpec`. -/
def NodeSpec.wantedCount : NodeSpec → Nat
  | .countSpec n => n
  | .typeSpec => 0

/-- Embedding of `NodePrioritizer.isReplacement` (part_006 lines 243-253).
`nofNodesInCluster` and `nodeFailedNodes` are the two `long` stream counts
computed in the constructor; the comparison
`wantedCount > nofNodesInCluster - nodeFailedNodes` is Java integer
arithmetic, modelled over `Int`. -/
def isReplacement (requestedNodes : NodeSpec) (nofNodesInCluster nodeFailedNodes : Nat) : Bool :=
  if nodeFailedNodes = 0 then false
  else decide ((requestedNodes.wantedCount : Int) > (nofNodesInCluster : Int) - (nodeFailedNodes : Int))

/-- `ResourceCapacity` (part_008): a (memory, cpu, disk) vector of Java
`double`s, modelled exactly as rationals. -/
structure ResourceCapacity where
  memory : ℚ
  cpu : ℚ
  disk : ℚ
  deriving Repr, DecidableEq

/-- A flavor's resource requirements as read by `ResourceCapacity`
(`getMinMainMemoryAvailableGb`, `getMinCpuCores`, `getMinDiskAvailableGb`). -/
structure Flavor where
  memory : ℚ
  cpu : ℚ
  disk : ℚ
  deriving Repr, DecidableEq

/-- Embedding of `ResourceCapacity.hasCapacityFor(Flavor)` (part_008 lines
79-83). -/
def hasCapacityFor (c : ResourceCapacity) (f : Flavor) : Bool :=
  decide (c.memory ≥ f.memory) && decide (c.cpu ≥ f.cpu) && decide (c.disk ≥ f.disk)

/-- Java narrowing conversion `(int)` applied to a `double` that holds an
integral value: values outside the 32-bit range are clamped. -/
def javaDoubleToInt (x : ℤ) : ℤ :=
  max (-2147483648) (min 2147483647 x)

/-- Embedding of `ResourceCapacity.freeCapacityInFlavorEquivalence(Flavor)`
(part_008 lines 94-105): 0 when the capacity does not cover the flavor,
otherwise the `(int)` cast of
`min(floor(memory/fMem), floor(cpu/fCpu), floor(disk/fDisk))`. -/
def freeCapacityInFlavorEquivalence (c : ResourceCapacity) (f : Flavor) : ℤ :=
  if hasCapacityFor c f then
    let memoryFactor : ℤ := ⌊c.memory / f.memory⌋
    let cpuFactor : ℤ := ⌊c.cpu / f.cpu⌋
    let diskFactor : ℤ := ⌊c.disk / f.disk⌋
    javaDoubleToInt (min (min memoryFactor cpuFactor) diskFactor)
  else 0

end Provision

/-! ## CLI document-fetch client
(src/vespaclient-java/.../vespaget/CommandLineOptions.java, Java section)

`parseCommandLineArguments` is modelled from the point where the Apache
commons-cli `DefaultParser` has produced a `CommandLine` object `cl`
(that parser is third-party code); the `CommandLine` structure below
records exactly the observations the method makes of `cl`:
`hasOption`/`getOptionValue`/parsed numeric options/positional args. -/

namespace VespaGet

/-- The observations `parseCommandLineArguments` makes of the parsed
command line.  A boolean field is `hasOption`, a `String` field is
`getOptionValue(…, "")` (empty when the option is absent), a numeric
`Option` field is `getParsedOptionValue` (`none` when absent). -/
structure CommandLine where
  printids : Bool
  headersonly : Bool
  help : Bool
  noretry : Bool
  showdocsize : Bool
  jsonoutput : Bool
  fieldset : String
  cluster : String
  route : String
  configid : String
  loadtype : String
  timeout : Option ℚ
  trace : Option Int
  priority : Option Int
  args : List String
  deriving Repr, DecidableEq

/-- Modelled from the spec: the defined `DocumentProtocol.Priority` values
(the enum itself lives outside the source sample); §4.12: an unrecognized
numeric priority "one not matching any defined protocol priority" is
rejected, and the default is the protocol's normal priority, 6
(option help text "Priority (default 6)"). -/
def definedPriorities : List Int :=
  [0, 1, 2, 3, 4, 5, 6, 7, 8, 9, 10, 11, 12, 13, 14, 15]

/-- `parsePriority` (CommandLineOptions.java lines 254-261): returns the
matching priority value or throws `IllegalArgumentException`. -/
def parsePriority (n : Int) : Except String Int :=
  if n ∈ definedPriorities then .ok n
  else .error ("Invalid priority: " ++ toString n)

/-- `getPriority` (lines 248-252): parsed option value or the default 6. -/
def getPriority (cl : CommandLine) : Except String Int :=
  parsePriority (cl.priority.getD 6)

/-- The source of document ids chosen by `getDocumentIds` (lines 226-236).
Both sources are lazy: choosing one consumes no ids. -/
inductive DocIdSource where
  | fromStdin
  | fromArgs (ids : List String)
  deriving Repr, DecidableEq

/-- Embedding of `getDocumentIds`: stdin is used when there are no
positional arguments, or when the only positional argument is the empty
string. -/
def getDocumentIds (cl : CommandLine) : DocIdSource :=
  if cl.args.isEmpty || (cl.args.length = 1 && (cl.args.headD "").isEmpty)
  then .fromStdin
  else .fromArgs cl.args

/-- The validated parameter set built by `parseCommandLineArguments`. -/
structure ClientParameters where
  documentIds : DocIdSource
  configId : String
  fieldSet : String
  help : Bool
  printIdsOnly : Bool
  loadTypeName : String
  noRetry : Bool
  cluster : String
  route : String
  showDocSize : Bool
  traceLevel : Int
  priority : Int
  timeout : ℚ
  jsonOutput : Bool
  deriving Repr, DecidableEq

/-- Embedding of `CommandLineOptions.parseCommandLineArguments`
(CommandLineOptions.java lines 152-224), starting from the parsed
`CommandLine`.  `.error` is a thrown `IllegalArgumentException`.  Besides
the parameters, the result carries the list of document ids consumed from
stdin or the argument list while parsing: the method only *selects* the
(lazy) id source, so that list is empty on every path, in particular on
every error path. -/
def parseCommandLineArguments (cl : CommandLine) :
    Except String ClientParameters × List String :=
  let consumed : List String := []
  let result : Except String ClientParameters :=
    match getPriority cl with
    | .error e => .error e
    | .ok priority =>
      let trace := cl.trace.getD 0
      let timeout := cl.timeout.getD 0
      let documentIds := getDocumentIds cl
      if cl.printids && cl.headersonly then
        .error "Print ids and headers only options are mutually exclusive."
      else if (cl.printids || cl.headersonly) && !cl.fieldset.isEmpty then
        .error "Field set option can not be used in combination with print ids or headers only options."
      else
        let fieldSet :=
          if cl.printids then "[id]"
          else if cl.headersonly then "[header]"
          else if cl.fieldset.isEmpty then "[all]"
          else cl.fieldset
        if !cl.cluster.isEmpty && !cl.route.isEmpty then
          .error "Cluster and route options are mutually exclusive."
        else
          let route := if cl.route.isEmpty && cl.cluster.isEmpty then "default" else cl.route
          if trace < 0 || trace > 9 then
            .error ("Invalid tracelevel: " ++ toString trace)
          else
            let configId := if cl.configid.isEmpty then "client" else cl.configid
            .ok { documentIds := documentIds
                  configId := configId
                  fieldSet := fieldSet
                  help := cl.help
                  printIdsOnly := cl.printids
                  loadTypeName := cl.loadtype
                  noRetry := cl.noretry
                  cluster := cl.cluster
                  route := route
                  showDocSize := cl.showdocsize
                  traceLevel := trace
                  priority := priority
                  timeout := timeout
                  jsonOutput := cl.jsonoutput }
  (result, consumed)

end VespaGet

/-! ## Geo-distance docsum field writer
(positionsdfw.cpp, concatenated into
src/vespaclient-java/.../vespaget/CommandLineOptions.java lines 264-491)

`AbsDistanceDFW::findMinDistance` walks every zcurve position stored for
the document.  Positions are modelled as the already-decoded
`(docx, docy)` pairs (the decode itself, `vespalib::geo::ZCurve::decode`,
is a collaborator outside the sample; the claims are stated in terms of
the decoded coordinates).  All coordinates are 32-bit signed; the distance
accumulator is `uint64`. -/

namespace Docsummary

/-- The parsed query location as used by `findMinDistance` / `insertField`.
`x`,`y` are `int32` coordinates, `xAspect` is the `uint32` x-axis aspect
correction, and `parseError` models `getParseError()` (`none` = parsed
successfully). -/
structure Location where
  x : Int
  y : Int
  xAspect : Nat
  parseError : Option String
  deriving Repr, DecidableEq

/-- The branch pair computing `dx` (or `dy`): the larger coordinate minus
the smaller, as `uint32`.  For `int32` inputs the difference always fits
in 32 bits, so this is the absolute difference. -/
def coordDiff (a b : Int) : Nat := (a - b).natAbs

/-- The aspect correction `dx = ((uint64) dx * location.getXAspect()) >> 32`,
applied only when the aspect is non-zero. -/
def aspectCorrect (dx xAspect : Nat) : Nat :=
  if xAspect ≠ 0 then (dx * xAspect) / 2 ^ 32 else dx

/-- One loop iteration's squared distance
`dist2 = dx * (uint64) dx + dy * (uint64) dy` in `uint64` arithmetic. -/
def dist2 (loc : Location) (p : Int × Int) : Nat :=
  let dx := aspectCorrect (coordDiff loc.x p.1) loc.xAspect
  let dy := coordDiff loc.y p.2
  (dx * dx + dy * dy) % 2 ^ 64

/-- Embedding of `AbsDistanceDFW::findMinDistance` (positionsdfw.cpp):
`absdist` starts at `std::numeric_limits<int64_t>::max() = 2^63 - 1` and is
lowered, in exact integer arithmetic, to each stored position's `dist2`
that undercuts it.  The final conversion
`(uint64_t)std::sqrt((double)absdist)` is IEEE double arithmetic, whose
rounding lies outside this integer embedding — it is weakly monotone and
can exceed the exact integer square root by one inside rounding windows
(e.g. at `2^62 + 2^32` it yields `2^31 + 1` while the integer square root
is `2^31`) — so it is abstracted here as the parameter `sqrtCast`. -/
def findMinDistanceWith (sqrtCast : Nat → Nat) (loc : Location)
    (positions : List (Int × Int)) : Nat :=
  sqrtCast (positions.foldl
    (fun absdist p => if dist2 loc p < absdist then dist2 loc p else absdist)
    (2 ^ 63 - 1))

/-- `findMinDistance` with the conversion instantiated to the exact
integer square root.  This specialization is used only at inputs where
the exact square root provably agrees with the program's conversion:
the untouched accumulator `2^63 - 1` (the double conversion rounds it to
`2^63`, whose rounded square root truncates to 3037000499, the integer
square root of `2^63 - 1`). -/
def findMinDistance (loc : Location) (positions : List (Int × Int)) : Nat :=
  findMinDistanceWith Nat.sqrt loc positions

/-- The docsum result types from the sample that `AbsDistanceDFW::insertField`
distinguishes. -/
inductive ResType where
  | resInt | resShort | resByte | resFloat | resDouble | resInt64
  | resString | resLongString | resFeatureData | resXmlString
  | resData | resTensor | resLongData | resJsonString
  deriving Repr, DecidableEq

/-- What `insertField` wrote into the target inserter: nothing (field forced
empty or incompatible type), a long, a string, or raw data. -/
inductive Inserted where
  | nothing
  | long (v : Nat)
  | str (s : String)
  | raw (s : String)
  deriving Repr, DecidableEq

/-- The slice of `GetDocsumsState` that `AbsDistanceDFW::insertField` reads:
the query's location string (`state->_args.getLocation()`), the location
that parsing it produces (`state->_parsedLocation` after
`ParseLocation`), and the stored positions per document id (the bound
attribute vector's values, zcurve-decoded). -/
structure GetDocsumsState where
  locationStr : String
  parsedLocation : Location
  positions : Nat → List (Int × Int)

/-- Embedding of `AbsDistanceDFW::insertField` (positionsdfw.cpp):
`forceEmpty` stays `true` (and nothing is written) unless the query
carries a non-empty location string whose parse produced no error;
otherwise the minimum distance is inserted as a long for `RES_INT`, as its
decimal string for the string types, and as raw data for the data types. -/
def insertField (docid : Nat) (state : GetDocsumsState) (rtype : ResType) : Inserted :=
  let forceEmpty : Bool :=
    !(!state.locationStr.isEmpty && state.parsedLocation.parseError.isNone)
  if forceEmpty then .nothing
  else
    let absdist := findMinDistance state.parsedLocation (state.positions docid)
    match rtype with
    | .resInt => .long absdist
    | .resString | .resLongString | .resXmlString => .str (toString absdist)
    | .resLongData | .resData => .raw (toString absdist)
    | _ => .nothing

end Docsummary

/-! ## Dynamic docsum writer
(src/searchsummary/.../docsummary/docsumwriter.cpp)

`DynamicDocsumWriter::insertDocsum` either generates the whole docsum from
override writers (`rci.allGenerated`) or unpacks the stored summary blob
obtained from `IDocsumStore::getMappedDocsum`.  The embedding returns,
alongside the assembled output, the list of document ids passed to
`getMappedDocsum`, so the claim about the store read path is a statement
about that list.  A `none` result models a fatal null-pointer dereference
(the all-generated loop uses `_overrideTable[...]` without a null check). -/

namespace Docsumwriter

open Docsummary in
/-- One entry of a result class: stable field-name enum value, bind name
and output type (`ResConfigEntry`). -/
structure ResConfigEntry where
  enumValue : Nat
  bindname : String
  rtype : Docsummary.ResType
  deriving Repr, DecidableEq

/-- A result class: its ordered entries (`GetNumEntries`/`GetEntry`). -/
structure ResultClassDef where
  entries : List ResConfigEntry
  deriving Repr, DecidableEq

/-- `ResultClass::GetIndexFromEnumValue`: index of the entry with the given
enum value, or -1 (modelled as `none`). -/
def getIndexFromEnumValue (rc : ResultClassDef) (enumValue : Nat) : Option Nat :=
  rc.entries.findIdx? (fun e => e.enumValue = enumValue)

/-- A stored docsum entry (`ResEntry`) as consumed by `convertEntry`: the
union fields used per result type, with string/data payloads already
resolved from field space. -/
structure ResEntry where
  intval : Int
  doubleval : ℚ
  int64val : Int
  stringval : String
  dataval : String
  deriving Repr, DecidableEq

/-- What a writer/converter put into the per-field object inserter. -/
inductive Emitted where
  | nothing
  | long (v : Int)
  | dbl (v : ℚ)
  | str (s : String)
  | raw (s : String)
  | structured (s : String)
  deriving Repr, DecidableEq

/-- Embedding of the static `convertEntry` (docsumwriter.cpp lines 84-134):
raw-entry conversion by result type; a `RES_JSONSTRING` entry of length 0
inserts nothing, otherwise its bytes are decoded as structured data. -/
def convertEntry (resCfg : ResConfigEntry) (entry : ResEntry) : Emitted :=
  match resCfg.rtype with
  | .resInt | .resShort | .resByte => .long entry.intval
  | .resFloat | .resDouble => .dbl entry.doubleval
  | .resInt64 => .long entry.int64val
  | .resString | .resLongString | .resFeatureData | .resXmlString => .str entry.stringval
  | .resData | .resTensor | .resLongData => .raw entry.dataval
  | .resJsonString =>
      if entry.dataval.isEmpty then .nothing else .structured entry.dataval

/-- An override field writer (`IDocsumFieldWriter`) as observed by
`insertDocsum`: whether it is generated, its default-value fast path, and
its (abstract) insertion behaviour per docid and requested type. -/
structure DocsumFieldWriter where
  isGenerated : Bool
  isDefaultValue : Nat → Bool
  insertField : Nat → Docsummary.ResType → Emitted

/-- The unpacked general result view of a stored docsum blob: entry lookup
by index (`GeneralResult::GetEntry`). -/
structure GeneralResult where
  getEntry : Nat → Option ResEntry

/-- The docsum store as seen from `insertDocsum`:
`getMappedDocsum docid` is the stored blob for the docid, already composed
with `GeneralResult::inplaceUnpack` (`none` = unpack failed, e.g. during
lid-space compaction). -/
structure DocsumStore where
  getMappedDocsum : Nat → Option GeneralResult

/-- The `ResolveClassInfo` fields `insertDocsum` reads.  `inputClass` and
`outputClass` are canonical per class id in the result config, so the
source's pointer comparison `rci.inputClass == rci.outputClass` is
modelled as structural equality. -/
structure ResolveClassInfo where
  allGenerated : Bool
  outputClass : ResultClassDef
  inputClass : ResultClassDef

/-- The per-document result: an object of (field name, emitted value)
pairs, or the explicit empty "nix" result. -/
inductive DocsumOutput where
  | nix
  | obj (fields : List (String × Emitted))
  deriving Repr, DecidableEq

/-- The all-generated loop of `insertDocsum`: for every output entry, look
up the override writer (no null check in the source: a missing writer is a
fatal dereference, modelled by `none`) and, unless the field equals its
default value, insert the generated value. -/
def generateFields (overrideTable : Nat → Option DocsumFieldWriter) (docid : Nat) :
    List ResConfigEntry → Option (List (String × Emitted))
  | [] => some []
  | resCfg :: rest => do
      let writer ← overrideTable resCfg.enumValue
      let tail ← generateFields overrideTable docid rest
      if ! writer.isDefaultValue docid then
        pure ((resCfg.bindname, writer.insertField docid resCfg.rtype) :: tail)
      else
        pure tail

/-- The re-pack loop of `insertDocsum`'s else branch: override writers take
precedence; otherwise same-class entries are converted directly; otherwise
the matching input-class field is copied only when its type matches
(mismatches are silently dropped).  `LOG_ASSERT(entry != NULL)` failures
are modelled by `none`. -/
def copyFields (rci : ResolveClassInfo) (overrideTable : Nat → Option DocsumFieldWriter)
    (docid : Nat) (gres : GeneralResult) :
    List (Nat × ResConfigEntry) → Option (List (String × Emitted))
  | [] => some []
  | (i, outCfg) :: rest => do
      let tail ← copyFields rci overrideTable docid gres rest
      match overrideTable outCfg.enumValue with
      | some writer =>
          pure ((outCfg.bindname, writer.insertField docid outCfg.rtype) :: tail)
      | none =>
          if rci.inputClass = rci.outputClass then do
            let entry ← gres.getEntry i
            pure ((outCfg.bindname, convertEntry outCfg entry) :: tail)
          else
            match getIndexFromEnumValue rci.inputClass outCfg.enumValue with
            | some inIdx =>
                match (rci.inputClass.entries.get? inIdx) with
                | some inCfg =>
                    if inCfg.rtype = outCfg.rtype then do
                      let entry ← gres.getEntry inIdx
                      pure ((outCfg.bindname, convertEntry outCfg entry) :: tail)
                    else
                      pure ((outCfg.bindname, Emitted.nothing) :: tail)
                | none => pure ((outCfg.bindname, Emitted.nothing) :: tail)
            | none => pure ((outCfg.bindname, Emitted.nothing) :: tail)

/-- Embedding of `DynamicDocsumWriter::insertDocsum` (docsumwriter.cpp
lines 137-192).  Returns the assembled output together with the list of
docids passed to `IDocsumStore::getMappedDocsum`; `none` models a fatal
dereference. -/
def insertDocsum (rci : ResolveClassInfo) (docid : Nat)
    (overrideTable : Nat → Option DocsumFieldWriter) (store : DocsumStore) :
    Option (DocsumOutput × List Nat) :=
  if rci.allGenerated then do
    let fields ← generateFields overrideTable docid rci.outputClass.entries
    pure (DocsumOutput.obj fields, [])
  else
    match store.getMappedDocsum docid with
    | none => some (DocsumOutput.nix, [docid])
    | some gres => do
        let fields ← copyFields rci overrideTable docid gres rci.outputClass.entries.enum
        pure (DocsumOutput.obj fields, [docid])

end Docsumwriter

/-! ## Field-path updates (src/document/.../update/fieldpathupdate.cpp)

`FieldPathUpdate::applyTo` is embedded with its collaborators kept
abstract: `buildFieldPath` stands for the document type's path resolution,
`whereEval` for `parseDocumentSelection(...)->contains(doc)` (the ordered
variable-binding result list).  The embedding returns the resolved path
together with the log of `doc.iterateNested(path, handler)` invocations,
each tagged with the variable bindings installed in the handler at that
point (`none` = the handler's untouched initial bindings). -/

namespace FieldPath

/-- The tri-state document-selection result (`select::Result`). -/
inductive SelResult where
  | strue
  | sfalse
  | sinvalid
  deriving Repr, DecidableEq

/-- A variable binding set captured by the selection (`fieldvalue::VariableMap`). -/
def VariableMap : Type := List (String × String)

instance : DecidableEq VariableMap := by
  unfold VariableMap
  infer_instance

/-- Embedding of `FieldPathUpdate::applyTo` (fieldpathupdate.cpp lines
57-77): resolve the path; with an empty where-clause iterate once with the
handler as constructed; otherwise iterate once per variable-binding result
whose selection result is `True`, after installing that binding. -/
def applyTo (originalFieldPath originalWhereClause : String)
    (buildFieldPath : String → List String)
    (whereEval : String → List (VariableMap × SelResult)) :
    List String × List (Option VariableMap) :=
  let path := buildFieldPath originalFieldPath
  if originalWhereClause.isEmpty then
    (path, [none])
  else
    (path,
     (whereEval originalWhereClause).filterMap
       (fun r => if r.2 = SelResult.strue then some (some r.1) else none))

end FieldPath

/-! ## Document-store file-chunk engine: append path
(src/unnamed/part_002, `WriteableFileChunk`)

Embedding of `append` together with the pieces of `flush(false, …)` /
`flushLastIfNonEmpty` it exercises.  Assertion failures are modelled as a
`none` result.  The back-pressure wait in `flushLastIfNonEmpty` (suspend
while more than 1000 chunks are in flight) is a blocking wait, not a state
change, and is not represented in this sequential embedding. -/

namespace DocStore

/-- An in-memory chunk: its id within the file and its appended
(lid, length) entries, bounded by the configured maximum byte size. -/
structure Chunk where
  chunkId : Nat
  entries : List (Nat × Nat)
  maxBytes : Nat
  deriving Repr, DecidableEq

/-- A chunk's payload size: the bytes appended so far. -/
def Chunk.size (c : Chunk) : Nat := (c.entries.map Prod.snd).sum

/-- `Chunk::empty()`. -/
def Chunk.isEmpty (c : Chunk) : Bool := c.entries.isEmpty

/-- Modelled from the spec: `Chunk::hasRoom(len)` (chunk.cpp is not part
of the source sample).  §4.2: "writes accumulate into one *active* chunk
bounded by a configured maximum byte size; `append(...)` rolls the active
chunk over to the background writer if the new bytes would not fit" — the
new bytes fit when the accumulated payload plus the new length stays
within the configured budget. -/
def Chunk.hasRoom (c : Chunk) (len : Nat) : Bool :=
  c.size + len ≤ c.maxBytes

/-- `Chunk::append(lid, buffer, len)`. -/
def Chunk.append (c : Chunk) (lid len : Nat) : Chunk :=
  { c with entries := c.entries ++ [(lid, len)] }

/-- The result record of `WriteableFileChunk::append`:
`LidInfo(fileId, chunkId, size)`. -/
structure LidInfo where
  fileId : Nat
  chunkId : Nat
  size : Nat
  deriving Repr, DecidableEq

/-- The slice of `WriteableFileChunk` state that `append` touches.
`chunkMap` holds the chunks rolled over to the background writer
(`_chunkMap`), keyed by chunk id. -/
structure WFCState where
  fileId : Nat
  frozen : Bool
  serialNum : Nat
  nextChunkId : Nat
  active : Chunk
  chunkMap : List (Nat × Chunk)
  addedBytes : Nat
  maxChunkBytes : Nat
  deriving Repr, DecidableEq

/-- Embedding of `WriteableFileChunk::flushLastIfNonEmpty(force)`
(part_002 lines 623-643): when forced or the active chunk is non-empty,
the active chunk moves into `_chunkMap` (asserting the next chunk id is
below `LidInfo::getChunkIdLimit()`, passed in as `chunkIdLimit`) and a
fresh active chunk is installed; the returned id is -1 (`none`) otherwise. -/
def flushLastIfNonEmpty (chunkIdLimit : Nat) (force : Bool) (s : WFCState) :
    Option (Option Nat × WFCState) :=
  if force || !s.active.isEmpty then
    if s.nextChunkId < chunkIdLimit then
      some (some s.active.chunkId,
        { s with
          chunkMap := s.chunkMap ++ [(s.active.chunkId, s.active)]
          active := { chunkId := s.nextChunkId, entries := [], maxBytes := s.maxChunkBytes }
          nextChunkId := s.nextChunkId + 1 })
    else none
  else
    some (none, s)

/-- Embedding of `WriteableFileChunk::flush(block, syncToken)` (part_002
lines 645-667) for the non-blocking call `flush(false, _serialNum)` made by
`append`: rolls the active chunk over (`force = syncToken > _serialNum`),
and when a chunk was rolled over sets the serial number to the sync token
and hands the chunk to the background executor (`internalFlush` — in this
embedding, membership in `chunkMap` is that handover). -/
def flushNonBlocking (chunkIdLimit : Nat) (syncToken : Nat) (s : WFCState) :
    Option WFCState := do
  let (chunkId, s1) ← flushLastIfNonEmpty chunkIdLimit (decide (syncToken > s.serialNum)) s
  match chunkId with
  | some _ => pure { s1 with serialNum := syncToken }
  | none => pure s1

/-- Embedding of `WriteableFileChunk::append(serialNum, lid, buffer, len)`
(part_002 lines 700-717).  `none` models an assertion failure
(`assert(!frozen())`, `assert(serialNum >= _serialNum)`, or the chunk-id
limit assert inside the rollover). -/
def append (chunkIdLimit : Nat) (s : WFCState) (serialNum lid len : Nat) :
    Option (WFCState × LidInfo) := do
  if s.frozen then none
  else
    let s1 ← if ! s.active.hasRoom len then
               flushNonBlocking chunkIdLimit s.serialNum s
             else
               pure s
    if serialNum < s1.serialNum then none
    else
      let newActive := s1.active.append lid len
      pure ({ s1 with
              serialNum := serialNum
              addedBytes := s1.addedBytes + len
              active := newActive },
            { fileId := s1.fileId, chunkId := s1.active.chunkId, size := len })

end DocStore

/-! ## Document-store file-chunk engine: background writer pipeline
(src/unnamed/part_002, `insertChunks` / `fetchNextChain` / `fileWriter`)

Processed chunks finish packing in arbitrary order and are reassembled in
`_orderedChunks` (a `std::map` keyed by chunk id, modelled as a
key-sorted association list).  One `fileWriter` run drains the queue,
inserts the drained chunks, fetches the contiguous run starting at the
next expected chunk id and appends exactly that run to the data file,
queueing its index records in the same order.  The data and index files
are modelled as the sequences of chunk ids whose payload/index record has
been appended. -/

namespace FileWriter

/-- A packed chunk handed to the background writer (`ProcessedChunk`):
its chunk id and payload length.  The `none` slot of the queue is the
shutdown sentinel enqueued by `freeze()`. -/
structure PChunk where
  chunkId : Nat
  payLoad : Nat
  deriving Repr, DecidableEq

/-- `std::map::operator[]` assignment on a key-sorted association list:
insert the pair at its ordered position, replacing an existing binding. -/
def mapInsert (orderedChunks : List (Nat × Option PChunk)) (key : Nat) (v : Option PChunk) :
    List (Nat × Option PChunk) :=
  match orderedChunks with
  | [] => [(key, v)]
  | (k, w) :: rest =>
      if key < k then (key, v) :: (k, w) :: rest
      else if key = k then (key, v) :: rest
      else (k, w) :: mapInsert rest key v

/-- `orderedChunks.find(key) != orderedChunks.end()`. -/
def mapContains (orderedChunks : List (Nat × Option PChunk)) (key : Nat) : Bool :=
  orderedChunks.any (fun p => p.1 = key)

/-- Embedding of `WriteableFileChunk::insertChunks` (part_002 lines
356-368): every drained chunk is asserted to have an id at least the next
expected one and to be absent from the map, then stored under its id; the
shutdown sentinel is stored under `uint32` max.  `none` models an
assertion failure. -/
def insertChunks (orderedChunks : List (Nat × Option PChunk))
    (newChunks : List (Option PChunk)) (nextChunkId : Nat) :
    Option (List (Nat × Option PChunk)) :=
  match newChunks with
  | [] => some orderedChunks
  | some c :: rest =>
      if c.chunkId ≥ nextChunkId ∧ !mapContains orderedChunks c.chunkId then
        insertChunks (mapInsert orderedChunks c.chunkId (some c)) rest nextChunkId
      else none
  | none :: rest =>
      insertChunks (mapInsert orderedChunks (2 ^ 32 - 1) none) rest nextChunkId

/-- Embedding of `WriteableFileChunk::fetchNextChain` (part_002 lines
370-382): pop map entries from the front while the next key equals
`firstChunkId` plus the number already popped, or the entry is the null
sentinel; return the popped chain and the remaining map.  `cnt` is
`chunks.size()` so far (0 at the call site). -/
def fetchNextChain (orderedChunks : List (Nat × Option PChunk)) (firstChunkId cnt : Nat) :
    List (Option PChunk) × List (Nat × Option PChunk) :=
  match orderedChunks with
  | [] => ([], [])
  | (k, v) :: rest =>
      if k = firstChunkId + cnt || v.isNone then
        (v :: (fetchNextChain rest firstChunkId (cnt + 1)).1,
         (fetchNextChain rest firstChunkId (cnt + 1)).2)
      else ([], (k, v) :: rest)

/-- The trailing-sentinel handling of `computeChunkMeta` (part_002 lines
415-448): a null entry must be the last of the chain (asserted), sets
`done` and is dropped; the remaining chunks are processed in order. -/
def processChains : List (Option PChunk) → Option (List PChunk × Bool)
  | [] => some ([], false)
  | none :: rest => if rest.isEmpty then some ([], true) else none
  | some c :: rest => (processChains rest).map (fun p => (c :: p.1, p.2))

/-- The background-writer state across `fileWriter` runs: the reassembly
map, the next chunk id expected by the writer
(`_firstChunkIdToBeWritten`), and the two files as sequences of appended
chunk ids.  Index records enter the `_pendingChunks` FIFO in write order
and are flushed to the `.idx` file in that same order, so `idxFile`
records them at append time. -/
structure WriterState where
  orderedChunks : List (Nat × Option PChunk)
  nextChunkId : Nat
  datFile : List Nat
  idxFile : List Nat
  done : Bool
  deriving Repr, DecidableEq

/-- Embedding of one `fileWriter(firstChunkId)` run over a drained batch
(part_002 lines 490-533): insert the drained chunks, fetch the contiguous
chain starting at the expected id, advance the expected id by the chain
length, write the chain's payloads to the data file in chain order
(`writeData`) and queue their index records in the same order
(`computeChunkMeta`).  `none` models an assertion failure. -/
def fileWriterStep (s : WriterState) (newChunks : List (Option PChunk)) :
    Option WriterState :=
  match newChunks with
  | [] => some s
  | _ => do
      let ordered ← insertChunks s.orderedChunks newChunks s.nextChunkId
      let fetched := fetchNextChain ordered s.nextChunkId 0
      let processed ← processChains fetched.1
      pure { orderedChunks := fetched.2
             nextChunkId := s.nextChunkId + fetched.1.length
             datFile := s.datFile ++ processed.1.map PChunk.chunkId
             idxFile := s.idxFile ++ processed.1.map PChunk.chunkId
             done := processed.2 }

/-- The invariant tying a writer state to the first chunk id it ever
expected: the reassembly map is key-sorted, every waiting entry is a real
chunk stored under its own id at or beyond the next expected id, and both
files hold exactly the contiguous ascending run of chunk ids from
`first0` up to the next expected id. -/
def WF (first0 : Nat) (s : WriterState) : Prop :=
  s.orderedChunks.Pairwise (fun a b => a.1 < b.1) ∧
  (∀ p ∈ s.orderedChunks, ∃ c : PChunk, p.2 = some c ∧ c.chunkId = p.1) ∧
  (∀ p ∈ s.orderedChunks, s.nextChunkId ≤ p.1) ∧
  first0 ≤ s.nextChunkId ∧
  s.datFile = List.range' first0 (s.nextChunkId - first0) ∧
  s.idxFile = s.datFile

instance (first0 : Nat) (s : WriterState) : Decidable (WF first0 s) := by
  unfold WF
  infer_instance

end FileWriter

/-! ## Theorems -/

/-- Floor commutes with binary minimum (used for the resource-capacity
claim, where the source floors each quotient before taking minima while
the spec floors the minimum). -/
theorem floor_min_comm (x y : ℚ) : ⌊min x y⌋ = min ⌊x⌋ ⌊y⌋ := by
  rcases le_total x y with h | h
  · rw [min_eq_left h, min_eq_left (Int.floor_le_floor h)]
  · rw [min_eq_right h, min_eq_right (Int.floor_le_floor h)]

/-- C2: `ReferenceAttribute::considerCompact` runs `compactWorst` exactly
when it returns true, and it returns true iff the unique store's dead
bytes are at least `DEAD_BYTES_SLACK = 0x10000` and exceed
`usedBytes * maxDeadBytesRatio`; otherwise no compaction is performed and
false is returned. -/
theorem claim_C2_considerCompact (u d : Nat) (r : ℚ) :
    ((RefAttr.considerCompact u d r).returned =
      (RefAttr.considerCompact u d r).compactWorstCalled) ∧
    ((RefAttr.considerCompact u d r).returned = true ↔
      (65536 ≤ d ∧ (u : ℚ) * r < (d : ℚ))) := by
  unfold RefAttr.considerCompact RefAttr.DEAD_BYTES_SLACK
  by_cases h1 : 65536 ≤ d <;> by_cases h2 : (u : ℚ) * r < (d : ℚ) <;>
    simp [h1, h2]

/-- C5: `NodePrioritizer.isReplacement` holds for a count request iff the
failed-node count for this application and cluster is non-zero and the
requested count exceeds the current cluster size minus the failed count;
in particular a request for 4 nodes with cluster size 5 and 2 failed nodes
is a replacement. -/
theorem claim_C5_isReplacement (n inCluster failed : Nat) :
    (Provision.isReplacement (.countSpec n) inCluster failed = true ↔
      (failed ≠ 0 ∧ (n : Int) > (inCluster : Int) - (failed : Int))) ∧
    Provision.isReplacement (.countSpec 4) 5 2 = true := by
  constructor
  · unfold Provision.isReplacement Provision.NodeSpec.wantedCount
    by_cases h : failed = 0 <;> simp [h]
  · decide

/-- C6 counterexample: for the capacity (-1, 1, 1) (component-wise
subtraction can leave negative free capacity) and the flavor (1, 1, 1),
`freeCapacityInFlavorEquivalence` returns 0 while
`floor(min(memory/fMem, cpu/fCpu, disk/fDisk))` is -1, so the two are
not equal for every capacity. -/
theorem claim_C6_counterexample :
    Provision.freeCapacityInFlavorEquivalence ⟨-1, 1, 1⟩ ⟨1, 1, 1⟩ = 0 ∧
    ⌊min (min ((-1 : ℚ) / 1) ((1 : ℚ) / 1)) ((1 : ℚ) / 1)⌋ = -1 := by
  constructor
  · norm_num [Provision.freeCapacityInFlavorEquivalence, Provision.hasCapacityFor]
  · norm_num

/-- C6 (amended): for every capacity and every flavor with positive
requirements, `freeCapacityInFlavorEquivalence` equals
`floor(min(memory/fMem, cpu/fCpu, disk/fDisk))` clamped below by 0 (the
no-capacity early return) and above by the `int` range, and it returns 0
exactly when some component is below the flavor's requirement. -/
theorem claim_C6_freeCapacity (c : Provision.ResourceCapacity) (f : Provision.Flavor)
    (hm : 0 < f.memory) (hc : 0 < f.cpu) (hd : 0 < f.disk) :
    Provision.freeCapacityInFlavorEquivalence c f =
      max 0 (min 2147483647
        ⌊min (min (c.memory / f.memory) (c.cpu / f.cpu)) (c.disk / f.disk)⌋) ∧
    (Provision.freeCapacityInFlavorEquivalence c f = 0 ↔
      (c.memory < f.memory ∨ c.cpu < f.cpu ∨ c.disk < f.disk)) := by
  have hcap : Provision.hasCapacityFor c f = true ↔
      (f.memory ≤ c.memory ∧ f.cpu ≤ c.cpu ∧ f.disk ≤ c.disk) := by
    simp [Provision.hasCapacityFor, Bool.and_eq_true, decide_eq_true_iff, and_assoc]
  rw [floor_min_comm, floor_min_comm]
  by_cases h : Provision.hasCapacityFor c f = true
  · have hval : Provision.freeCapacityInFlavorEquivalence c f =
        max (-2147483648) (min 2147483647
          (min (min ⌊c.memory / f.memory⌋ ⌊c.cpu / f.cpu⌋) ⌊c.disk / f.disk⌋)) := by
      unfold Provision.freeCapacityInFlavorEquivalence Provision.javaDoubleToInt
      rw [if_pos h]
    obtain ⟨h1, h2, h3⟩ := hcap.mp h
    have f1 : 1 ≤ ⌊c.memory / f.memory⌋ := by
      rw [Int.le_floor]
      exact_mod_cast (one_le_div hm).mpr h1
    have f2 : 1 ≤ ⌊c.cpu / f.cpu⌋ := by
      rw [Int.le_floor]
      exact_mod_cast (one_le_div hc).mpr h2
    have f3 : 1 ≤ ⌊c.disk / f.disk⌋ := by
      rw [Int.le_floor]
      exact_mod_cast (one_le_div hd).mpr h3
    refine ⟨by rw [hval]; omega, ?_, ?_⟩
    · intro h0
      rw [hval] at h0
      omega
    · intro hlt
      rcases hlt with hlt | hlt | hlt
      · exact absurd h1 (not_le.mpr hlt)
      · exact absurd h2 (not_le.mpr hlt)
      · exact absurd h3 (not_le.mpr hlt)
  · have h0 : Provision.freeCapacityInFlavorEquivalence c f = 0 := by
      unfold Provision.freeCapacityInFlavorEquivalence
      rw [if_neg h]
    have hne : c.memory < f.memory ∨ c.cpu < f.cpu ∨ c.disk < f.disk := by
      by_contra hcon
      push_neg at hcon
      exact h (hcap.mpr ⟨hcon.1, hcon.2.1, hcon.2.2⟩)
    have hlow : min (min ⌊c.memory / f.memory⌋ ⌊c.cpu / f.cpu⌋) ⌊c.disk / f.disk⌋ ≤ 0 := by
      rcases hne with hlt | hlt | hlt
      · have hfloor : ⌊c.memory / f.memory⌋ < 1 := by
          rw [Int.floor_lt]
          exact_mod_cast (div_lt_one hm).mpr hlt
        omega
      · have hfloor : ⌊c.cpu / f.cpu⌋ < 1 := by
          rw [Int.floor_lt]
          exact_mod_cast (div_lt_one hc).mpr hlt
        omega
      · have hfloor : ⌊c.disk / f.disk⌋ < 1 := by
          rw [Int.floor_lt]
          exact_mod_cast (div_lt_one hd).mpr hlt
        omega
    exact ⟨by rw [h0]; omega, by rw [h0]; exact ⟨fun _ => hne, fun _ => rfl⟩⟩

/-- C6 witness: the amended statement at the concrete capacity (5, 4, 3)
and flavor (1, 1, 1) — three further instances fit. -/
theorem claim_C6_witness :
    Provision.freeCapacityInFlavorEquivalence ⟨5, 4, 3⟩ ⟨1, 1, 1⟩ =
      max 0 (min 2147483647
        ⌊min (min ((5 : ℚ) / 1) ((4 : ℚ) / 1)) ((3 : ℚ) / 1)⌋) ∧
    (Provision.freeCapacityInFlavorEquivalence ⟨5, 4, 3⟩ ⟨1, 1, 1⟩ = 0 ↔
      ((5 : ℚ) < 1 ∨ (4 : ℚ) < 1 ∨ (3 : ℚ) < 1)) :=
  claim_C6_freeCapacity ⟨5, 4, 3⟩ ⟨1, 1, 1⟩ (by norm_num) (by norm_num) (by norm_num)

/-- `String.isEmpty` is false exactly on non-empty strings (bridging the
claims' `≠ ""` hypotheses to the embedded parser's boolean tests). -/
theorem isEmpty_false_of_ne (s : String) (h : s ≠ "") : s.isEmpty = false := by
  cases hh : s.isEmpty
  · rfl
  · exact absurd ((String.isEmpty_iff s).mp hh) h

/-- C8: the CLI parser consumes no document id from stdin or the argument
list (the id source is selected lazily), rejects `--printids` together
with `--headersonly` and `--cluster` together with `--route` with an
`IllegalArgumentException`, and defaults the route to "default" when
neither `--cluster` nor `--route` was given. -/
theorem claim_C8_parse (cl : VespaGet.CommandLine) :
    ((VespaGet.parseCommandLineArguments cl).2 = []) ∧
    (cl.printids = true → cl.headersonly = true →
      ∃ msg, (VespaGet.parseCommandLineArguments cl).1 = .error msg) ∧
    (cl.cluster ≠ "" → cl.route ≠ "" →
      ∃ msg, (VespaGet.parseCommandLineArguments cl).1 = .error msg) ∧
    (∀ params, (VespaGet.parseCommandLineArguments cl).1 = .ok params →
      cl.cluster = "" → cl.route = "" → params.route = "default") := by
  refine ⟨rfl, ?_, ?_, ?_⟩
  · intro hp hh
    rcases hpr : VespaGet.getPriority cl with e | p
    · exact ⟨e, by simp [VespaGet.parseCommandLineArguments, hpr]⟩
    · exact ⟨"Print ids and headers only options are mutually exclusive.",
        by simp [VespaGet.parseCommandLineArguments, hpr, hp, hh]⟩
  · intro hc hr
    have hcb : cl.cluster.isEmpty = false := isEmpty_false_of_ne _ hc
    have hrb : cl.route.isEmpty = false := isEmpty_false_of_ne _ hr
    rcases hpr : VespaGet.getPriority cl with e | p
    · exact ⟨e, by simp [VespaGet.parseCommandLineArguments, hpr]⟩
    · by_cases h1 : cl.printids && cl.headersonly
      · exact ⟨"Print ids and headers only options are mutually exclusive.",
          by simp [VespaGet.parseCommandLineArguments, hpr, h1]⟩
      · by_cases h2 : (cl.printids || cl.headersonly) && !cl.fieldset.isEmpty
        · exact ⟨"Field set option can not be used in combination with print ids or headers only options.",
            by simp [VespaGet.parseCommandLineArguments, hpr, h1, h2]⟩
        · exact ⟨"Cluster and route options are mutually exclusive.",
            by simp [VespaGet.parseCommandLineArguments, hpr, h1, h2, hcb, hrb]⟩
  · intro params hok hc hr
    have hcb : cl.cluster.isEmpty = true := by rw [hc]; rfl
    have hrb : cl.route.isEmpty = true := by rw [hr]; rfl
    rcases hpr : VespaGet.getPriority cl with e | p
    · simp [VespaGet.parseCommandLineArguments, hpr] at hok
    · by_cases h1 : cl.printids && cl.headersonly
      · simp [VespaGet.parseCommandLineArguments, hpr, h1] at hok
      · by_cases h2 : (cl.printids || cl.headersonly) && !cl.fieldset.isEmpty
        · simp [VespaGet.parseCommandLineArguments, hpr, h1, h2] at hok
        · by_cases h3 : (cl.trace.getD 0 < 0 || cl.trace.getD 0 > 9)
          · simp [VespaGet.parseCommandLineArguments, hpr, h1, h2, hcb, hrb, h3] at hok
          · simp [VespaGet.parseCommandLineArguments, hpr, h1, h2, hcb, hrb, h3] at hok
            rw [← hok]

/-- C8 witness: the mutual-exclusion rejections and the route default at
concrete command lines (all other options at their defaults). -/
theorem claim_C8_witness :
    (∃ msg, (VespaGet.parseCommandLineArguments
      ⟨true, true, false, false, false, false, "", "", "", "", "", none, none, none, []⟩).1 =
        .error msg) ∧
    (∃ msg, (VespaGet.parseCommandLineArguments
      ⟨false, false, false, false, false, false, "", "foo", "bar", "", "", none, none, none, []⟩).1 =
        .error msg) ∧
    (∀ params, (VespaGet.parseCommandLineArguments
      ⟨false, false, false, false, false, false, "", "", "", "", "", none, none, none, []⟩).1 =
        .ok params → params.route = "default") :=
  ⟨(claim_C8_parse _).2.1 rfl rfl,
   (claim_C8_parse _).2.2.1 (by decide) (by decide),
   fun params hok => (claim_C8_parse _).2.2.2 params hok rfl rfl⟩

/-- `Nat.sqrt n = k` from the bracketing squares (used to evaluate the
embedded distance writer's integer square root on concrete inputs). -/
theorem sqrt_eq_of_bracket (k n : Nat) (h1 : k * k ≤ n) (h2 : n < (k + 1) * (k + 1)) :
    Nat.sqrt n = k := by
  have l1 := Nat.le_sqrt.mpr h1
  have l2 := Nat.sqrt_lt.mpr h2
  omega

/-- The minimum-distance accumulator's initial value maps to 3037000499:
`floor(sqrt(2^63 - 1))`. -/
theorem sqrt_int64_max : Nat.sqrt (2 ^ 63 - 1) = 3037000499 := by
  apply sqrt_eq_of_bracket <;> norm_num

/-- The running-minimum fold of `findMinDistance`: the result is the
initial accumulator or an attained value, bounds every value, and never
exceeds the initial accumulator. -/
theorem minFold_spec {α : Type} (g : α → Nat) :
    ∀ (l : List α) (init : Nat),
      (l.foldl (fun a x => if g x < a then g x else a) init = init ∨
        ∃ x ∈ l, l.foldl (fun a x => if g x < a then g x else a) init = g x) ∧
      l.foldl (fun a x => if g x < a then g x else a) init ≤ init ∧
      ∀ x ∈ l, l.foldl (fun a x => if g x < a then g x else a) init ≤ g x := by
  intro l
  induction l with
  | nil => intro init; simp
  | cons y rest ih =>
      intro init
      obtain ⟨hmem, hle, hbound⟩ := ih (if g y < init then g y else init)
      refine ⟨?_, ?_, ?_⟩
      · rcases hmem with hmem | ⟨x, hx, hmem⟩
        · rw [List.foldl_cons, hmem]
          split
          · exact Or.inr ⟨y, List.mem_cons_self y rest, rfl⟩
          · exact Or.inl rfl
        · exact Or.inr ⟨x, List.mem_cons_of_mem y hx, by rw [List.foldl_cons]; exact hmem⟩
      · rw [List.foldl_cons]
        refine le_trans hle ?_
        split <;> omega
      · intro x hx
        rcases List.mem_cons.mp hx with hx | hx
        · subst hx
          rw [List.foldl_cons]
          refine le_trans hle ?_
          split <;> omega
        · rw [List.foldl_cons]
          exact hbound x hx

/-- C4 counterexample: with the query location at x = 2147483647, y = 0
(no aspect correction, successfully parsed) and one stored position
(-889516853, 0), the absolute differences are dx = 3037000500, dy = 0,
whose squared distance 3037000500² exceeds the accumulator's initial
value 2^63 - 1, so the accumulator is never lowered and the writer
converts 2^63 - 1 — at which the program's
`(uint64_t)std::sqrt((double)·)` agrees with the exact integer square
root — producing 3037000499, not floor(sqrt(dx² + dy²)) = 3037000500 as
the claim states for every document and query location. -/
theorem claim_C4_counterexample :
    Docsummary.findMinDistance ⟨2147483647, 0, 0, none⟩ [(-889516853, 0)] = 3037000499 ∧
    Nat.sqrt (Docsummary.coordDiff 2147483647 (-889516853) ^ 2 +
      Docsummary.coordDiff 0 0 ^ 2) = 3037000500 := by
  constructor
  · have hd : Docsummary.dist2 ⟨2147483647, 0, 0, none⟩ (-889516853, 0) =
        9223372037000250000 := by decide
    unfold Docsummary.findMinDistance Docsummary.findMinDistanceWith
    rw [List.foldl_cons, List.foldl_nil, hd]
    norm_num [sqrt_int64_max]
  · have hc : Docsummary.coordDiff 2147483647 (-889516853) = 3037000500 := by decide
    have hc0 : Docsummary.coordDiff 0 0 = 0 := by decide
    rw [hc, hc0]
    apply sqrt_eq_of_bracket <;> norm_num

/-- C4 (amended): write `t` for the program's final conversion
`(uint64_t)std::sqrt((double)absdist)` — a weakly monotone map that is
the exact integer square root up to double-rounding (abstracted as the
`sqrtCast` parameter, since IEEE rounding lies outside this embedding).
Provided every stored position's squared coordinate distance stays below
2^63 (the accumulator's initial value caps larger distances at
t(2^63-1) = 3037000499): with one stored position and zero aspect
correction the writer produces `t(dx²+dy²)` of the exactly computed
integer `dx²+dy²`; with several stored positions it produces `t` of a
minimal squared distance, which by monotonicity is bounded by every
per-position value `t(dx²+dy²)` (the minimum over all of them); and when
the query carries no location string or the location failed to parse,
`insertField` writes nothing regardless of stored positions. -/
theorem claim_C4_distance :
    (∀ (sqrtCast : Nat → Nat) (loc : Docsummary.Location) (p : Int × Int), loc.xAspect = 0 →
      Docsummary.coordDiff loc.x p.1 ^ 2 + Docsummary.coordDiff loc.y p.2 ^ 2 < 2 ^ 63 →
      Docsummary.findMinDistanceWith sqrtCast loc [p] =
        sqrtCast (Docsummary.coordDiff loc.x p.1 ^ 2 + Docsummary.coordDiff loc.y p.2 ^ 2)) ∧
    (∀ (sqrtCast : Nat → Nat) (loc : Docsummary.Location) (ps : List (Int × Int)),
      Monotone sqrtCast → loc.xAspect = 0 → ps ≠ [] →
      (∀ p ∈ ps,
        Docsummary.coordDiff loc.x p.1 ^ 2 + Docsummary.coordDiff loc.y p.2 ^ 2 < 2 ^ 63) →
      ∃ p0 ∈ ps,
        Docsummary.findMinDistanceWith sqrtCast loc ps =
          sqrtCast (Docsummary.coordDiff loc.x p0.1 ^ 2 +
            Docsummary.coordDiff loc.y p0.2 ^ 2) ∧
        (∀ p ∈ ps,
          Docsummary.coordDiff loc.x p0.1 ^ 2 + Docsummary.coordDiff loc.y p0.2 ^ 2 ≤
            Docsummary.coordDiff loc.x p.1 ^ 2 + Docsummary.coordDiff loc.y p.2 ^ 2) ∧
        (∀ p ∈ ps,
          Docsummary.findMinDistanceWith sqrtCast loc ps ≤
            sqrtCast (Docsummary.coordDiff loc.x p.1 ^ 2 +
              Docsummary.coordDiff loc.y p.2 ^ 2))) ∧
    (∀ (state : Docsummary.GetDocsumsState) (docid : Nat) (rtype : Docsummary.ResType),
      state.locationStr = "" ∨ state.parsedLocation.parseError ≠ none →
      Docsummary.insertField docid state rtype = .nothing) := by
  have hdist2 : ∀ (loc : Docsummary.Location) (p : Int × Int), loc.xAspect = 0 →
      Docsummary.coordDiff loc.x p.1 ^ 2 + Docsummary.coordDiff loc.y p.2 ^ 2 < 2 ^ 63 →
      Docsummary.dist2 loc p =
        Docsummary.coordDiff loc.x p.1 ^ 2 + Docsummary.coordDiff loc.y p.2 ^ 2 := by
    intro loc p ha hb
    unfold Docsummary.dist2 Docsummary.aspectCorrect
    rw [ha]
    simp only [ne_eq, not_true_eq_false, if_false]
    rw [← pow_two, ← pow_two]
    exact Nat.mod_eq_of_lt (lt_trans hb (by norm_num))
  refine ⟨?_, ?_, ?_⟩
  · intro sqrtCast loc p ha hb
    unfold Docsummary.findMinDistanceWith
    rw [List.foldl_cons, List.foldl_nil, hdist2 loc p ha hb]
    split
    · rfl
    · next hge =>
        have : Docsummary.coordDiff loc.x p.1 ^ 2 + Docsummary.coordDiff loc.y p.2 ^ 2 =
            2 ^ 63 - 1 := by omega
        rw [this]
  · intro sqrtCast loc ps hmono ha hne hball
    obtain ⟨hmem, hle, hbound⟩ := minFold_spec (Docsummary.dist2 loc) ps (2 ^ 63 - 1)
    have hattain : ∃ x ∈ ps,
        ps.foldl (fun a x => if Docsummary.dist2 loc x < a then Docsummary.dist2 loc x else a)
          (2 ^ 63 - 1) = Docsummary.dist2 loc x := by
      rcases hmem with hmem | hmem
      · obtain ⟨q, hq⟩ := List.exists_mem_of_ne_nil ps hne
        have h1 := hbound q hq
        have h2 : Docsummary.dist2 loc q ≤ 2 ^ 63 - 1 := by
          rw [hdist2 loc q ha (hball q hq)]
          have := hball q hq
          omega
        exact ⟨q, hq, by omega⟩
      · exact hmem
    obtain ⟨p0, hp0, hfold⟩ := hattain
    have hres : Docsummary.findMinDistanceWith sqrtCast loc ps =
        sqrtCast (Docsummary.coordDiff loc.x p0.1 ^ 2 +
          Docsummary.coordDiff loc.y p0.2 ^ 2) := by
      unfold Docsummary.findMinDistanceWith
      rw [hfold, hdist2 loc p0 ha (hball p0 hp0)]
    have hminsq : ∀ p ∈ ps,
        Docsummary.coordDiff loc.x p0.1 ^ 2 + Docsummary.coordDiff loc.y p0.2 ^ 2 ≤
          Docsummary.coordDiff loc.x p.1 ^ 2 + Docsummary.coordDiff loc.y p.2 ^ 2 := by
      intro p hp
      have := hbound p hp
      rw [hfold] at this
      rw [hdist2 loc p0 ha (hball p0 hp0)] at this
      rw [hdist2 loc p ha (hball p hp)] at this
      exact this
    refine ⟨p0, hp0, hres, hminsq, ?_⟩
    intro p hp
    rw [hres]
    exact hmono (hminsq p hp)
  · intro state docid rtype hempty
    unfold Docsummary.insertField
    rcases hempty with hempty | hempty
    · rw [hempty]
      rfl
    · rcases hpe : state.parsedLocation.parseError with _ | e
      · exact absurd hpe hempty
      · cases hS : state.locationStr.isEmpty <;> rfl

/-- C4 witness: the amended statement applied with the exact integer
square root as a concrete monotone conversion instance, at a location at
the origin with stored positions (3, 4) and [(6, 8), (3, 4)], and at a
state whose location string is empty. -/
theorem claim_C4_witness :
    (Docsummary.findMinDistanceWith Nat.sqrt ⟨0, 0, 0, none⟩ [(3, 4)] =
      Nat.sqrt (Docsummary.coordDiff 0 3 ^ 2 + Docsummary.coordDiff 0 4 ^ 2)) ∧
    (∃ p0 ∈ [((6 : Int), (8 : Int)), (3, 4)],
      Docsummary.findMinDistanceWith Nat.sqrt ⟨0, 0, 0, none⟩ [(6, 8), (3, 4)] =
        Nat.sqrt (Docsummary.coordDiff 0 p0.1 ^ 2 + Docsummary.coordDiff 0 p0.2 ^ 2) ∧
      (∀ p ∈ [((6 : Int), (8 : Int)), (3, 4)],
        Docsummary.coordDiff 0 p0.1 ^ 2 + Docsummary.coordDiff 0 p0.2 ^ 2 ≤
          Docsummary.coordDiff 0 p.1 ^ 2 + Docsummary.coordDiff 0 p.2 ^ 2) ∧
      (∀ p ∈ [((6 : Int), (8 : Int)), (3, 4)],
        Docsummary.findMinDistanceWith Nat.sqrt ⟨0, 0, 0, none⟩ [(6, 8), (3, 4)] ≤
          Nat.sqrt (Docsummary.coordDiff 0 p.1 ^ 2 + Docsummary.coordDiff 0 p.2 ^ 2))) ∧
    (Docsummary.insertField 7 ⟨"", ⟨0, 0, 0, none⟩, fun _ => [(3, 4)]⟩ .resInt =
      .nothing) :=
  ⟨claim_C4_distance.1 Nat.sqrt ⟨0, 0, 0, none⟩ (3, 4) rfl (by decide),
   claim_C4_distance.2.1 Nat.sqrt ⟨0, 0, 0, none⟩ [(6, 8), (3, 4)]
     (by intro a b h; exact Nat.sqrt_le_sqrt h) rfl (by decide) (by decide),
   claim_C4_distance.2.2 ⟨"", ⟨0, 0, 0, none⟩, fun _ => [(3, 4)]⟩ 7 .resInt (Or.inl rfl)⟩

/-- C10: when the attribute holds no stored position for a document and
the query location parsed successfully, `AbsDistanceDFW` inserts the
distance 3037000499 = floor(sqrt(2^63 - 1)) (the untouched accumulator)
rather than omitting the field. -/
theorem claim_C10_emptyPositions (state : Docsummary.GetDocsumsState) (docid : Nat)
    (h1 : state.locationStr ≠ "") (h2 : state.parsedLocation.parseError = none)
    (h3 : state.positions docid = []) :
    Docsummary.insertField docid state .resInt = .long 3037000499 ∧
    Docsummary.findMinDistance state.parsedLocation (state.positions docid) = 3037000499 := by
  have hfind : Docsummary.findMinDistance state.parsedLocation (state.positions docid) =
      3037000499 := by
    rw [h3]
    unfold Docsummary.findMinDistance Docsummary.findMinDistanceWith
    rw [List.foldl_nil]
    exact sqrt_int64_max
  refine ⟨?_, hfind⟩
  have hb : state.locationStr.isEmpty = false := isEmpty_false_of_ne _ h1
  unfold Docsummary.insertField
  simp only [hb, h2, Option.isNone_none, Bool.not_false, Bool.and_true, Bool.not_true,
    Bool.false_eq_true, if_false]
  rw [hfind]

/-- C10 witness: a document with no stored positions and a parsed query
location receives the inserted long 3037000499. -/
theorem claim_C10_witness :
    Docsummary.insertField 7 ⟨"(2,x,y)", ⟨0, 0, 0, none⟩, fun _ => []⟩ .resInt =
      .long 3037000499 ∧
    Docsummary.findMinDistance (⟨0, 0, 0, none⟩ : Docsummary.Location) [] = 3037000499 :=
  claim_C10_emptyPositions ⟨"(2,x,y)", ⟨0, 0, 0, none⟩, fun _ => []⟩ 7 (by decide) rfl rfl

/-- The all-generated loop succeeds whenever every output field has a
registered override writer. -/
theorem generateFields_total (overrideTable : Nat → Option Docsumwriter.DocsumFieldWriter)
    (docid : Nat) :
    ∀ entries : List Docsumwriter.ResConfigEntry,
      (∀ e ∈ entries, (overrideTable e.enumValue).isSome) →
      ∃ fields, Docsumwriter.generateFields overrideTable docid entries = some fields := by
  intro entries
  induction entries with
  | nil => intro _; exact ⟨[], rfl⟩
  | cons resCfg rest ih =>
      intro hw
      obtain ⟨w, hwr⟩ := Option.isSome_iff_exists.mp (hw resCfg (List.mem_cons_self resCfg rest))
      obtain ⟨tail, htail⟩ := ih (fun e he => hw e (List.mem_cons_of_mem resCfg he))
      by_cases hd : w.isDefaultValue docid
      · exact ⟨tail, by simp [Docsumwriter.generateFields, hwr, htail, hd]⟩
      · exact ⟨(resCfg.bindname, w.insertField docid resCfg.rtype) :: tail,
          by simp [Docsumwriter.generateFields, hwr, htail, hd]⟩

/-- C3: when the resolved output class is all-generated — every field has
a registered generated override writer — `insertDocsum` assembles the
docsum without passing any document id to `IDocsumStore::getMappedDocsum`
(the store-read log is empty), and the log is non-empty (exactly one read
of the requested docid) only on the non-all-generated branch. -/
theorem claim_C3_allGenerated (rci : Docsumwriter.ResolveClassInfo) (docid : Nat)
    (overrideTable : Nat → Option Docsumwriter.DocsumFieldWriter)
    (store : Docsumwriter.DocsumStore) :
    (rci.allGenerated = true →
      (∀ e ∈ rci.outputClass.entries, (overrideTable e.enumValue).isSome) →
      ∃ fields, Docsumwriter.insertDocsum rci docid overrideTable store =
        some (.obj fields, [])) ∧
    (∀ out log, Docsumwriter.insertDocsum rci docid overrideTable store = some (out, log) →
      (rci.allGenerated = true → log = []) ∧
      (rci.allGenerated = false → log = [docid])) := by
  constructor
  · intro hall hwriters
    obtain ⟨fields, hfields⟩ := generateFields_total overrideTable docid
      rci.outputClass.entries hwriters
    refine ⟨fields, ?_⟩
    unfold Docsumwriter.insertDocsum
    rw [if_pos hall, hfields]
    rfl
  · intro out log hlog
    constructor
    · intro hall
      unfold Docsumwriter.insertDocsum at hlog
      rw [if_pos hall] at hlog
      cases hgf : Docsumwriter.generateFields overrideTable docid rci.outputClass.entries with
      | none => rw [hgf] at hlog; exact absurd hlog (by simp)
      | some fields =>
          rw [hgf] at hlog
          have : (Docsumwriter.DocsumOutput.obj fields, ([] : List Nat)) = (out, log) :=
            Option.some.inj hlog
          exact (congrArg Prod.snd this).symm
    · intro hngen
      unfold Docsumwriter.insertDocsum at hlog
      rw [if_neg (by rw [hngen]; exact Bool.false_ne_true)] at hlog
      cases hst : store.getMappedDocsum docid with
      | none =>
          simp [hst] at hlog
          exact hlog.2.symm
      | some gres =>
          cases hcf : Docsumwriter.copyFields rci overrideTable docid gres
              rci.outputClass.entries.enum with
          | none => simp [hst, hcf] at hlog
          | some fields =>
              simp [hst, hcf] at hlog
              exact hlog.2.symm

/-- C3 witness: a one-field all-generated class assembled against a store
that would fail every read: the docsum is produced with an empty
store-read log. -/
theorem claim_C3_witness :
    ∃ fields,
      Docsumwriter.insertDocsum
        ⟨true, ⟨[⟨0, "f", .resInt⟩]⟩, ⟨[⟨0, "f", .resInt⟩]⟩⟩ 42
        (fun _ => some ⟨true, fun _ => false, fun _ _ => .long 7⟩)
        ⟨fun _ => none⟩ =
      some (.obj fields, []) :=
  (claim_C3_allGenerated ⟨true, ⟨[⟨0, "f", .resInt⟩]⟩, ⟨[⟨0, "f", .resInt⟩]⟩⟩ 42
      (fun _ => some ⟨true, fun _ => false, fun _ _ => .long 7⟩) ⟨fun _ => none⟩).1
    rfl (fun _ _ => rfl)

/-- The selection-result filter of `applyTo`, rewritten as filter-then-map
(each true-binding result contributes exactly one iteration). -/
theorem filterMap_true_bindings (l : List (FieldPath.VariableMap × FieldPath.SelResult)) :
    l.filterMap
      (fun r => if r.2 = FieldPath.SelResult.strue then some (some r.1) else none) =
    (l.filter (fun r => decide (r.2 = FieldPath.SelResult.strue))).map
      (fun r => some r.1) := by
  induction l with
  | nil => rfl
  | cons x rest ih =>
      by_cases h : x.2 = FieldPath.SelResult.strue <;>
        simp [List.filterMap_cons, List.filter_cons, h, ih]

/-- C7: `applyTo` resolves the field path against the document type, then:
with no where-clause it iterates the document against that path exactly
once (with the handler's initial variables); with a where-clause it
iterates once per variable-binding result whose selection result is True,
installing that binding — and iterates zero times when no binding
evaluates to True. -/
theorem claim_C7_applyTo (fp wc : String)
    (buildFieldPath : String → List String)
    (whereEval : String → List (FieldPath.VariableMap × FieldPath.SelResult)) :
    (FieldPath.applyTo fp wc buildFieldPath whereEval).1 = buildFieldPath fp ∧
    (wc = "" → (FieldPath.applyTo fp wc buildFieldPath whereEval).2 = [none]) ∧
    (wc ≠ "" →
      (FieldPath.applyTo fp wc buildFieldPath whereEval).2 =
        ((whereEval wc).filter (fun r => decide (r.2 = FieldPath.SelResult.strue))).map
          (fun r => some r.1)) ∧
    (wc ≠ "" → (∀ r ∈ whereEval wc, r.2 ≠ FieldPath.SelResult.strue) →
      (FieldPath.applyTo fp wc buildFieldPath whereEval).2 = []) := by
  refine ⟨?_, ?_, ?_, ?_⟩
  · unfold FieldPath.applyTo
    split <;> rfl
  · intro hwc
    unfold FieldPath.applyTo
    rw [if_pos (by rw [hwc]; rfl)]
  · intro hwc
    unfold FieldPath.applyTo
    rw [if_neg (by rw [isEmpty_false_of_ne wc hwc]; exact Bool.false_ne_true)]
    exact filterMap_true_bindings (whereEval wc)
  · intro hwc hnone
    unfold FieldPath.applyTo
    rw [if_neg (by rw [isEmpty_false_of_ne wc hwc]; exact Bool.false_ne_true)]
    rw [filterMap_true_bindings (whereEval wc)]
    have : (whereEval wc).filter (fun r => decide (r.2 = FieldPath.SelResult.strue)) = [] := by
      rw [List.filter_eq_nil_iff]
      intro r hr
      simp [hnone r hr]
    rw [this]
    rfl

/-- C7 witness: one iteration with no where-clause; two iterations for
the two True bindings of a three-result selection; zero when every
binding is False. -/
theorem claim_C7_witness :
    (FieldPath.applyTo "f.g" "" (fun s => [s]) (fun _ => [])).2 = [none] ∧
    (FieldPath.applyTo "f.g" "w" (fun s => [s])
      (fun _ => [([("k", "1")], .strue), ([("k", "2")], .sfalse), ([("k", "3")], .strue)])).2 =
      [some [("k", "1")], some [("k", "3")]] ∧
    (FieldPath.applyTo "f.g" "w" (fun s => [s])
      (fun _ => [([("k", "1")], .sfalse)])).2 = [] := by
  refine ⟨?_, ?_, ?_⟩
  · exact (claim_C7_applyTo "f.g" "" (fun s => [s]) (fun _ => [])).2.1 rfl
  · rw [(claim_C7_applyTo "f.g" "w" (fun s => [s]) _).2.2.1 (by simp)]
    rfl
  · exact (claim_C7_applyTo "f.g" "w" (fun s => [s]) _).2.2.2 (by simp)
      (by intro r hr; simp only [List.mem_singleton] at hr; subst hr; decide)

/-- C9 counterexample: an *empty* active chunk is never rolled over, even
when the new bytes would not fit.  With an empty active chunk of budget 10
and a 20-byte append, `hasRoom` is false, yet `flushLastIfNonEmpty(false)`
declines (`force || !empty()` fails), no chunk reaches the background
writer (`chunkMap` stays empty) and the bytes land in the *same* active
chunk (chunk id 0), not a fresh one — against the claim's unconditional
"if the new bytes would not fit … the active chunk is rolled over". -/
theorem claim_C9_counterexample :
    DocStore.Chunk.hasRoom ⟨0, [], 10⟩ 20 = false ∧
    DocStore.append 4194304 ⟨0, false, 0, 1, ⟨0, [], 10⟩, [], 0, 10⟩ 5 42 20 =
      some (⟨0, false, 5, 1, ⟨0, [(42, 20)], 10⟩, [], 20, 10⟩, ⟨0, 0, 20⟩) := by
  constructor
  · decide
  · rfl

/-- C9 (amended): under the two asserted preconditions — not frozen, and
a serial number at least the current one — plus the chunk-id-limit class
invariant, `append` never takes an assertion branch; when the new bytes
would not fit in a *non-empty* active chunk, that chunk is rolled over to
the background writer (it joins `_chunkMap` unchanged) before the bytes
are appended to the fresh active chunk (which takes the next chunk id);
an empty active chunk is never rolled over — the oversized payload is
appended into it directly, as when the bytes fit. -/
theorem claim_C9_append (chunkIdLimit : Nat) (s : DocStore.WFCState) (serial lid len : Nat)
    (hfrozen : s.frozen = false) (hserial : s.serialNum ≤ serial)
    (hlimit : s.nextChunkId < chunkIdLimit) :
    ∃ s1 li, DocStore.append chunkIdLimit s serial lid len = some (s1, li) ∧
      s1.serialNum = serial ∧
      (s.active.hasRoom len = true →
        s1.chunkMap = s.chunkMap ∧
        li.chunkId = s.active.chunkId ∧
        s1.active.entries = s.active.entries ++ [(lid, len)]) ∧
      (s.active.hasRoom len = false → s.active.isEmpty = false →
        s1.chunkMap = s.chunkMap ++ [(s.active.chunkId, s.active)] ∧
        li.chunkId = s.nextChunkId ∧
        s1.active.chunkId = s.nextChunkId ∧
        s1.active.entries = [(lid, len)]) ∧
      (s.active.hasRoom len = false → s.active.isEmpty = true →
        s1.chunkMap = s.chunkMap ∧
        li.chunkId = s.active.chunkId ∧
        s1.active.entries = s.active.entries ++ [(lid, len)]) := by
  have hns : ¬ (serial < s.serialNum) := not_lt.mpr hserial
  have hforce : decide (s.serialNum > s.serialNum) = false := by simp
  cases hroom : s.active.hasRoom len with
  | true =>
      have happ : DocStore.append chunkIdLimit s serial lid len =
          some (⟨s.fileId, s.frozen, serial, s.nextChunkId,
                  ⟨s.active.chunkId, s.active.entries ++ [(lid, len)], s.active.maxBytes⟩,
                  s.chunkMap, s.addedBytes + len, s.maxChunkBytes⟩,
                ⟨s.fileId, s.active.chunkId, len⟩) := by
        simp only [DocStore.append, DocStore.Chunk.append, hfrozen, Bool.false_eq_true,
          if_false, hroom, Bool.not_true, Option.pure_def, Option.bind_eq_bind,
          Option.some_bind, if_neg hns]
      refine ⟨_, _, happ, rfl, fun _ => ⟨rfl, rfl, rfl⟩, ?_, ?_⟩
      · intro hcon
        exact absurd hcon (by simp)
      · intro hcon
        exact absurd hcon (by simp)
  | false =>
      cases hempty : s.active.isEmpty with
      | false =>
          have happ : DocStore.append chunkIdLimit s serial lid len =
              some (⟨s.fileId, s.frozen, serial, s.nextChunkId + 1,
                      ⟨s.nextChunkId, [(lid, len)], s.maxChunkBytes⟩,
                      s.chunkMap ++ [(s.active.chunkId, s.active)],
                      s.addedBytes + len, s.maxChunkBytes⟩,
                    ⟨s.fileId, s.nextChunkId, len⟩) := by
            simp only [DocStore.append, DocStore.flushNonBlocking,
              DocStore.flushLastIfNonEmpty, DocStore.Chunk.append, hfrozen,
              Bool.false_eq_true, if_false, hroom, Bool.not_false, if_true, hforce,
              hempty, Bool.false_or, if_pos hlimit, Option.pure_def,
              Option.bind_eq_bind, Option.some_bind, if_neg hns, List.nil_append]
          refine ⟨_, _, happ, rfl, ?_, fun _ _ => ⟨rfl, rfl, rfl, rfl⟩, ?_⟩
          · intro hcon
            exact absurd hcon (by simp)
          · intro _ hcon
            exact absurd hcon (by simp)
      | true =>
          have happ : DocStore.append chunkIdLimit s serial lid len =
              some (⟨s.fileId, s.frozen, serial, s.nextChunkId,
                      ⟨s.active.chunkId, s.active.entries ++ [(lid, len)], s.active.maxBytes⟩,
                      s.chunkMap, s.addedBytes + len, s.maxChunkBytes⟩,
                    ⟨s.fileId, s.active.chunkId, len⟩) := by
            simp only [DocStore.append, DocStore.flushNonBlocking,
              DocStore.flushLastIfNonEmpty, DocStore.Chunk.append, hfrozen,
              Bool.false_eq_true, if_false, hroom, Bool.not_false, if_true, hforce,
              hempty, Bool.false_or, Bool.not_true, Option.pure_def,
              Option.bind_eq_bind, Option.some_bind, if_neg hns]
          refine ⟨_, _, happ, rfl, ?_, ?_, fun _ _ => ⟨rfl, rfl, rfl⟩⟩
          · intro hcon
            exact absurd hcon (by simp)
          · intro _ hcon
            exact absurd hcon (by simp)

/-- C9 witness: the amended statement at a non-empty active chunk (5 of 8
budget bytes used) receiving 6 further bytes: the rollover happens and the
bytes land in the fresh chunk 1. -/
theorem claim_C9_witness :
    ∃ s1 li,
      DocStore.append 4194304 ⟨0, false, 3, 1, ⟨0, [(1, 5)], 8⟩, [], 5, 8⟩ 7 2 6 =
        some (s1, li) ∧
      s1.serialNum = 7 ∧
      (DocStore.Chunk.hasRoom ⟨0, [(1, 5)], 8⟩ 6 = true →
        s1.chunkMap = [] ∧ li.chunkId = 0 ∧ s1.active.entries = [(1, 5)] ++ [(2, 6)]) ∧
      (DocStore.Chunk.hasRoom ⟨0, [(1, 5)], 8⟩ 6 = false →
        DocStore.Chunk.isEmpty ⟨0, [(1, 5)], 8⟩ = false →
        s1.chunkMap = [] ++ [(0, ⟨0, [(1, 5)], 8⟩)] ∧
        li.chunkId = 1 ∧ s1.active.chunkId = 1 ∧ s1.active.entries = [(2, 6)]) ∧
      (DocStore.Chunk.hasRoom ⟨0, [(1, 5)], 8⟩ 6 = false →
        DocStore.Chunk.isEmpty ⟨0, [(1, 5)], 8⟩ = true →
        s1.chunkMap = [] ∧ li.chunkId = 0 ∧ s1.active.entries = [(1, 5)] ++ [(2, 6)]) :=
  claim_C9_append 4194304 ⟨0, false, 3, 1, ⟨0, [(1, 5)], 8⟩, [], 5, 8⟩ 7 2 6
    rfl (by decide) (by decide)

/-- Values possibly present after a `std::map` insert: the inserted pair or
a pair already in the map. -/
theorem mapInsert_subset (key : Nat) (v : Option FileWriter.PChunk) :
    ∀ (l : List (Nat × Option FileWriter.PChunk)),
      ∀ p ∈ FileWriter.mapInsert l key v, p = (key, v) ∨ p ∈ l := by
  intro l
  induction l with
  | nil =>
      intro p hp
      simp only [FileWriter.mapInsert, List.mem_singleton] at hp
      exact Or.inl hp
  | cons x rest ih =>
      obtain ⟨k, w⟩ := x
      intro p hp
      simp only [FileWriter.mapInsert] at hp
      split at hp
      · rcases List.mem_cons.mp hp with hp | hp
        · exact Or.inl hp
        · exact Or.inr hp
      · split at hp
        · rcases List.mem_cons.mp hp with hp | hp
          · exact Or.inl hp
          · exact Or.inr (List.mem_cons_of_mem _ hp)
        · rcases List.mem_cons.mp hp with hp | hp
          · exact Or.inr (hp ▸ List.mem_cons_self _ _)
          · rcases ih p hp with hp2 | hp2
            · exact Or.inl hp2
            · exact Or.inr (List.mem_cons_of_mem _ hp2)

/-- `std::map` insert keeps the association list sorted by key. -/
theorem mapInsert_pairwise (key : Nat) (v : Option FileWriter.PChunk) :
    ∀ (l : List (Nat × Option FileWriter.PChunk)),
      l.Pairwise (fun a b => a.1 < b.1) →
      (FileWriter.mapInsert l key v).Pairwise (fun a b => a.1 < b.1) := by
  intro l
  induction l with
  | nil =>
      intro _
      simp [FileWriter.mapInsert]
  | cons x rest ih =>
      obtain ⟨k, w⟩ := x
      intro hpw
      rw [List.pairwise_cons] at hpw
      obtain ⟨hhead, htail⟩ := hpw
      simp only [FileWriter.mapInsert]
      split
      · next h1 =>
          refine List.Pairwise.cons ?_ (List.Pairwise.cons hhead htail)
          intro b hb
          rcases List.mem_cons.mp hb with hb | hb
          · rw [hb]
            exact h1
          · exact lt_trans h1 (hhead b hb)
      · next h1 =>
          split
          · next h2 =>
              refine List.Pairwise.cons ?_ htail
              intro b hb
              rw [h2]
              exact hhead b hb
          · next h2 =>
              have hk : k < key := by omega
              refine List.Pairwise.cons ?_ (ih htail)
              intro b hb
              rcases mapInsert_subset key v rest b hb with hb2 | hb2
              · rw [hb2]
                exact hk
              · exact hhead b hb2

/-- `insertChunks` preserves the reassembly-map invariants: sortedness,
every entry a real chunk keyed by its own id, and all keys at or beyond
the next expected chunk id. -/
theorem insertChunks_spec (bound : Nat) :
    ∀ (newChunks : List (Option FileWriter.PChunk))
      (ordered ordered2 : List (Nat × Option FileWriter.PChunk)),
      (∀ x ∈ newChunks, x.isSome) →
      FileWriter.insertChunks ordered newChunks bound = some ordered2 →
      List.Pairwise (fun a b => a.1 < b.1) ordered →
      (∀ p ∈ ordered, ∃ c : FileWriter.PChunk, p.2 = some c ∧ c.chunkId = p.1) →
      (∀ p ∈ ordered, bound ≤ p.1) →
      (List.Pairwise (fun a b => a.1 < b.1) ordered2 ∧
       (∀ p ∈ ordered2, ∃ c : FileWriter.PChunk, p.2 = some c ∧ c.chunkId = p.1) ∧
       (∀ p ∈ ordered2, bound ≤ p.1)) := by
  intro newChunks
  induction newChunks with
  | nil =>
      intro ordered ordered2 _ hins hpw hval hbound
      simp only [FileWriter.insertChunks, Option.some.injEq] at hins
      rw [← hins]
      exact ⟨hpw, hval, hbound⟩
  | cons x rest ih =>
      intro ordered ordered2 hsome hins hpw hval hbound
      cases x with
      | none => exact absurd (hsome none (List.mem_cons_self _ _)) (by simp)
      | some c =>
          simp only [FileWriter.insertChunks] at hins
          split at hins
          · next hcond =>
              refine ih (FileWriter.mapInsert ordered c.chunkId (some c)) ordered2
                (fun y hy => hsome y (List.mem_cons_of_mem _ hy)) hins
                (mapInsert_pairwise c.chunkId (some c) ordered hpw) ?_ ?_
              · intro p hp
                rcases mapInsert_subset c.chunkId (some c) ordered p hp with hp2 | hp2
                · rw [hp2]
                  exact ⟨c, rfl, rfl⟩
                · exact hval p hp2
              · intro p hp
                rcases mapInsert_subset c.chunkId (some c) ordered p hp with hp2 | hp2
                · rw [hp2]
                  exact hcond.1
                · exact hbound p hp2
          · exact absurd hins (by simp)

/-- One popping step of `fetchNextChain`: when the head key is the next
expected id the head entry joins the chain and the walk continues. -/
theorem fetch_cons_run (first cnt k0 : Nat) (v0 : Option FileWriter.PChunk)
    (rest : List (Nat × Option FileWriter.PChunk)) (hk : k0 = first + cnt) :
    FileWriter.fetchNextChain ((k0, v0) :: rest) first cnt =
      (v0 :: (FileWriter.fetchNextChain rest first (cnt + 1)).1,
       (FileWriter.fetchNextChain rest first (cnt + 1)).2) := by
  have hcond : (decide (k0 = first + cnt) || v0.isNone) = true := by
    rw [hk]
    simp
  conv_lhs => rw [FileWriter.fetchNextChain]
  rw [if_pos hcond]

/-- `fetchNextChain` on a sorted map of real chunks whose keys are at or
beyond `first + cnt` pops exactly the contiguous key run starting at
`first + cnt`; `processChains` turns that chain into the same run of
chunks with the done flag unset, and the remaining map keeps the
invariants with its keys beyond the run. -/
theorem fetchNextChain_spec :
    ∀ (l : List (Nat × Option FileWriter.PChunk)) (first cnt : Nat),
      List.Pairwise (fun a b => a.1 < b.1) l →
      (∀ p ∈ l, ∃ c : FileWriter.PChunk, p.2 = some c ∧ c.chunkId = p.1) →
      (∀ p ∈ l, first + cnt ≤ p.1) →
      ∃ (k : Nat) (written : List FileWriter.PChunk),
        (FileWriter.fetchNextChain l first cnt).1.length = k ∧
        FileWriter.processChains (FileWriter.fetchNextChain l first cnt).1 =
          some (written, false) ∧
        written.map FileWriter.PChunk.chunkId = List.range' (first + cnt) k ∧
        List.Pairwise (fun a b => a.1 < b.1) (FileWriter.fetchNextChain l first cnt).2 ∧
        (∀ p ∈ (FileWriter.fetchNextChain l first cnt).2,
          ∃ c : FileWriter.PChunk, p.2 = some c ∧ c.chunkId = p.1) ∧
        (∀ p ∈ (FileWriter.fetchNextChain l first cnt).2, first + cnt + k ≤ p.1) := by
  intro l
  induction l with
  | nil =>
      intro first cnt _ _ _
      exact ⟨0, [], rfl, rfl, rfl, List.Pairwise.nil, by simp [FileWriter.fetchNextChain],
        by simp [FileWriter.fetchNextChain]⟩
  | cons x rest ih =>
      intro first cnt hpw hval hbound
      obtain ⟨k0, v0⟩ := x
      obtain ⟨c, hc0, hcid0⟩ := hval (k0, v0) (List.mem_cons_self _ _)
      have hc : v0 = some c := hc0
      have hcid : c.chunkId = k0 := hcid0
      rw [List.pairwise_cons] at hpw
      obtain ⟨hhead, htail⟩ := hpw
      by_cases hk : k0 = first + cnt
      · obtain ⟨k2, written2, hlen2, hproc2, hmap2, hpw2, hval2, hbound2⟩ :=
          ih first (cnt + 1) htail
            (fun p hp => hval p (List.mem_cons_of_mem _ hp))
            (fun p hp => by
              have h1 : k0 < p.1 := hhead p hp
              omega)
        refine ⟨k2 + 1, c :: written2, ?_, ?_, ?_, ?_, ?_, ?_⟩
        · rw [fetch_cons_run first cnt k0 v0 rest hk]
          simp [hlen2]
        · rw [fetch_cons_run first cnt k0 v0 rest hk, hc]
          unfold FileWriter.processChains
          rw [hproc2]
          rfl
        · simp only [List.map_cons, hmap2, hcid, hk]
          rw [List.range'_succ, ← Nat.add_assoc]
        · rw [fetch_cons_run first cnt k0 v0 rest hk]
          exact hpw2
        · rw [fetch_cons_run first cnt k0 v0 rest hk]
          exact hval2
        · rw [fetch_cons_run first cnt k0 v0 rest hk]
          intro p hp
          have h1 := hbound2 p hp
          omega
      · have hfetch : FileWriter.fetchNextChain ((k0, v0) :: rest) first cnt =
            ([], (k0, v0) :: rest) := by
          unfold FileWriter.fetchNextChain
          rw [hc]
          simp [hk]
        refine ⟨0, [], ?_, ?_, rfl, ?_, ?_, ?_⟩
        · rw [hfetch]
          rfl
        · rw [hfetch]
          rfl
        · rw [hfetch]
          exact List.Pairwise.cons hhead htail
        · rw [hfetch]
          exact hval
        · rw [hfetch]
          intro p hp
          have h1 := hbound p hp
          omega

/-- Two adjacent contiguous runs of chunk ids glue into one. -/
theorem range'_glue (a b k : Nat) (h : a ≤ b) :
    List.range' a (b - a) ++ List.range' b k = List.range' a (b + k - a) := by
  have h2 := List.range'_append a (b - a) k 1
  rw [one_mul] at h2
  have h3 : a + (b - a) = b := by omega
  rw [h3] at h2
  rw [h2]
  congr 1
  omega

/-- C1: one background-writer run over any drained batch of packed chunks
(all real chunks — no shutdown sentinel) preserves the writer invariants
and appends to the data file exactly the contiguous ascending run of
chunk ids starting at the next expected id (`fetchNextChain` returns
exactly the consecutive run the reassembly map holds from
`firstChunkId`); the index records are emitted for the same ids in the
same ascending order, so the data file is at all times the unbroken run
from the first chunk id — a chunk packed out of order is not written
until every earlier chunk's bytes sit immediately before it. -/
theorem claim_C1_orderedWrites (first0 : Nat) (s s2 : FileWriter.WriterState)
    (batch : List (Option FileWriter.PChunk))
    (hWF : FileWriter.WF first0 s)
    (hbatch : ∀ x ∈ batch, x.isSome)
    (hstep : FileWriter.fileWriterStep s batch = some s2) :
    FileWriter.WF first0 s2 ∧
    s.nextChunkId ≤ s2.nextChunkId ∧
    s2.datFile = s.datFile ++ List.range' s.nextChunkId (s2.nextChunkId - s.nextChunkId) ∧
    s2.idxFile = s2.datFile ∧
    s2.datFile = List.range' first0 (s2.nextChunkId - first0) := by
  obtain ⟨hpw, hval, hbound, hfirst, hdat, hidx⟩ := hWF
  cases batch with
  | nil =>
      simp only [FileWriter.fileWriterStep, Option.some.injEq] at hstep
      rw [← hstep]
      refine ⟨⟨hpw, hval, hbound, hfirst, hdat, hidx⟩, le_refl _, ?_, hidx, hdat⟩
      rw [Nat.sub_self]
      simp
  | cons b0 brest =>
      cases hins : FileWriter.insertChunks s.orderedChunks (b0 :: brest) s.nextChunkId with
      | none =>
          simp only [FileWriter.fileWriterStep, hins, Option.bind_eq_bind,
            Option.none_bind] at hstep
          exact absurd hstep (by simp)
      | some ordered =>
          obtain ⟨hpw1, hval1, hbound1⟩ := insertChunks_spec s.nextChunkId (b0 :: brest)
            s.orderedChunks ordered hbatch hins hpw hval hbound
          obtain ⟨k, written, hlen, hproc, hwmap, hpw2, hval2, hbound2⟩ :=
            fetchNextChain_spec ordered s.nextChunkId 0 hpw1 hval1
              (fun p hp => by
                have h1 := hbound1 p hp
                omega)
          rw [Nat.add_zero] at hwmap
          have hs2 : s2 =
              { orderedChunks := (FileWriter.fetchNextChain ordered s.nextChunkId 0).2,
                nextChunkId := s.nextChunkId + k,
                datFile := s.datFile ++ written.map FileWriter.PChunk.chunkId,
                idxFile := s.idxFile ++ written.map FileWriter.PChunk.chunkId,
                done := false } := by
            simp only [FileWriter.fileWriterStep, hins, Option.bind_eq_bind,
              Option.some_bind, hproc, Option.pure_def, Option.some.injEq] at hstep
            rw [← hstep, hlen]
          have hglue : s.datFile ++ written.map FileWriter.PChunk.chunkId =
              List.range' first0 (s.nextChunkId + k - first0) := by
            rw [hdat, hwmap]
            exact range'_glue first0 s.nextChunkId k hfirst
          rw [hs2]
          unfold FileWriter.WF
          dsimp only
          refine ⟨⟨hpw2, hval2, ?_, by omega, hglue, by rw [hidx]⟩, by omega, ?_, by rw [hidx],
            hglue⟩
          · intro p hp
            have h1 := hbound2 p hp
            omega
          · have hk : s.nextChunkId + k - s.nextChunkId = k := by omega
            rw [hk, hwmap]

/-- C1 witness: the writer expects chunk 0 while chunk 1 (packed first,
out of order) already waits in the reassembly map; draining a batch that
delivers chunk 0 writes chunks 0 and 1, in that order, to both files. -/
theorem claim_C1_witness :
    FileWriter.WF 0 ⟨[], 2, [0, 1], [0, 1], false⟩ ∧
    0 ≤ 2 ∧
    ([0, 1] : List Nat) = [] ++ List.range' 0 (2 - 0) ∧
    ([0, 1] : List Nat) = [0, 1] ∧
    ([0, 1] : List Nat) = List.range' 0 (2 - 0) :=
  claim_C1_orderedWrites 0 ⟨[(1, some ⟨1, 8⟩)], 0, [], [], false⟩
    ⟨[], 2, [0, 1], [0, 1], false⟩ [some ⟨0, 4⟩] (by decide) (by decide) (by decide)

end Vespa
